import Mathlib

/-!
# FastOctree: a verification development of the octree builder

This file gives a shallow embedding of the octree construction code
(`src/lib.rs`): the bounds normalizer in `Octree::new`, the recursive cell
builder `OctreeCell::build_recursively`, and the cell variants. Machine
integers (`i32` / `glam::IVec3`) are embedded as unbounded `Int` triples,
since none of the verified properties depend on wrap-around. The arena
allocation is represented by returning cells by value: the observable
output of the builder is the tree of cells. Recursion in the source is
unbounded; the embedding makes it total with an explicit fuel parameter,
`none` meaning the recursion did not finish within the given fuel, so that
a run of the source that terminates corresponds to `some` for every
sufficiently large fuel, and a divergent run corresponds to `none` for all
fuel.
-/

/-- Embedding of `glam::IVec3`: a 3-vector of integers. -/
structure IVec3 where
  x : Int
  y : Int
  z : Int
deriving DecidableEq, Repr

namespace IVec3

/-- `IVec3::ZERO`. -/
def zero : IVec3 := ⟨0, 0, 0⟩

/-- `IVec3::splat`. -/
def splat (v : Int) : IVec3 := ⟨v, v, v⟩

/-- Componentwise minimum, `glam::IVec3::min`. -/
def minv (a b : IVec3) : IVec3 := ⟨Min.min a.x b.x, Min.min a.y b.y, Min.min a.z b.z⟩

/-- Componentwise maximum, `glam::IVec3::max`. -/
def maxv (a b : IVec3) : IVec3 := ⟨Max.max a.x b.x, Max.max a.y b.y, Max.max a.z b.z⟩

/-- Componentwise addition. -/
def add (a b : IVec3) : IVec3 := ⟨a.x + b.x, a.y + b.y, a.z + b.z⟩

/-- Componentwise subtraction. -/
def sub (a b : IVec3) : IVec3 := ⟨a.x - b.x, a.y - b.y, a.z - b.z⟩

/-- Componentwise multiplication. -/
def mul (a b : IVec3) : IVec3 := ⟨a.x * b.x, a.y * b.y, a.z * b.z⟩

instance : Add IVec3 := ⟨add⟩
instance : Sub IVec3 := ⟨sub⟩
instance : Mul IVec3 := ⟨mul⟩

/-- Componentwise Euclidean division, `glam::IVec3::div_euclid`. -/
def divEuclid (a b : IVec3) : IVec3 := ⟨a.x / b.x, a.y / b.y, a.z / b.z⟩

/-- Componentwise order on vectors. -/
instance : LE IVec3 := ⟨fun a b => a.x ≤ b.x ∧ a.y ≤ b.y ∧ a.z ≤ b.z⟩

theorem le_def (a b : IVec3) : a ≤ b ↔ a.x ≤ b.x ∧ a.y ≤ b.y ∧ a.z ≤ b.z := Iff.rfl

@[simp] theorem add_x (a b : IVec3) : (a + b).x = a.x + b.x := rfl
@[simp] theorem add_y (a b : IVec3) : (a + b).y = a.y + b.y := rfl
@[simp] theorem add_z (a b : IVec3) : (a + b).z = a.z + b.z := rfl
@[simp] theorem sub_x (a b : IVec3) : (a - b).x = a.x - b.x := rfl
@[simp] theorem sub_y (a b : IVec3) : (a - b).y = a.y - b.y := rfl
@[simp] theorem sub_z (a b : IVec3) : (a - b).z = a.z - b.z := rfl
@[simp] theorem mul_x (a b : IVec3) : (a * b).x = a.x * b.x := rfl
@[simp] theorem mul_y (a b : IVec3) : (a * b).y = a.y * b.y := rfl
@[simp] theorem mul_z (a b : IVec3) : (a * b).z = a.z * b.z := rfl
@[simp] theorem minv_x (a b : IVec3) : (minv a b).x = Min.min a.x b.x := rfl
@[simp] theorem minv_y (a b : IVec3) : (minv a b).y = Min.min a.y b.y := rfl
@[simp] theorem minv_z (a b : IVec3) : (minv a b).z = Min.min a.z b.z := rfl
@[simp] theorem maxv_x (a b : IVec3) : (maxv a b).x = Max.max a.x b.x := rfl
@[simp] theorem maxv_y (a b : IVec3) : (maxv a b).y = Max.max a.y b.y := rfl
@[simp] theorem maxv_z (a b : IVec3) : (maxv a b).z = Max.max a.z b.z := rfl
@[simp] theorem divEuclid_x (a b : IVec3) : (divEuclid a b).x = a.x / b.x := rfl
@[simp] theorem divEuclid_y (a b : IVec3) : (divEuclid a b).y = a.y / b.y := rfl
@[simp] theorem divEuclid_z (a b : IVec3) : (divEuclid a b).z = a.z / b.z := rfl
@[simp] theorem zero_x : zero.x = 0 := rfl
@[simp] theorem zero_y : zero.y = 0 := rfl
@[simp] theorem zero_z : zero.z = 0 := rfl
@[simp] theorem splat_x (v : Int) : (splat v).x = v := rfl
@[simp] theorem splat_y (v : Int) : (splat v).y = v := rfl
@[simp] theorem splat_z (v : Int) : (splat v).z = v := rfl

end IVec3

/-- Embedding of the `Volume` trait: the only capability consumed is an
inclusive integer min corner and max corner, so a volume is embedded as
that pair of corners. -/
structure Volume where
  min : IVec3
  max : IVec3
deriving DecidableEq, Repr

/-- Embedding of `enum OctreeCell`: the arena references of the source
become values, so an `EmptyCell` holds its 8 children directly (fields
`a` through `h`, in the source order) and a `FilledCell` holds its payload
list of volumes. -/
inductive OctreeCell where
  | FilledCell (payload : List Volume) : OctreeCell
  | EmptyCell (a b c d e f g h : OctreeCell) : OctreeCell
  | EmptyChildlessCell : OctreeCell
deriving DecidableEq, Repr

/-- The overlap filter condition from `build_recursively` (lines 87-93):
closed-interval per-axis AABB overlap of the volume with the region. -/
def overlaps (minBound maxBound : IVec3) (v : Volume) : Bool :=
  minBound.x ≤ v.max.x && maxBound.x ≥ v.min.x
    && minBound.y ≤ v.max.y && maxBound.y ≥ v.min.y
    && minBound.z ≤ v.max.z && maxBound.z ≥ v.min.z

/-- Midpoint from `build_recursively` line 102:
`(max_bound + min_bound).div_euclid(IVec3::splat(2))`. -/
def regionMidpoint (minBound maxBound : IVec3) : IVec3 :=
  (maxBound + minBound).divEuclid (IVec3.splat 2)

/-- Corner offset from `build_recursively` line 108:
`IVec3::new(i & 1, (i >> 1) & 1, (i >> 2) & 1)`. -/
def cornerOffset (i : Nat) : IVec3 :=
  ⟨Int.ofNat (i &&& 1), Int.ofNat ((i >>> 1) &&& 1), Int.ofNat ((i >>> 2) &&& 1)⟩

/-- `subregions_min[i]` from `build_recursively` line 109:
`min_bound + corner_offset * (regionMidpoint - max_bound)`. -/
def subregionMin (minBound maxBound : IVec3) (i : Nat) : IVec3 :=
  minBound + cornerOffset i * (regionMidpoint minBound maxBound - maxBound)

/-- `subregions_max[i]` from `build_recursively` line 110:
`regionMidpoint + corner_offset * (regionMidpoint - max_bound)`. -/
def subregionMax (minBound maxBound : IVec3) (i : Nat) : IVec3 :=
  regionMidpoint minBound maxBound + cornerOffset i * (regionMidpoint minBound maxBound - maxBound)

/-- Embedding of `OctreeCell::build_recursively`, with a fuel parameter to
make the (in fact non-terminating, see `octree_new_diverges`) recursion a
total function: `none` means the recursion did not finish within `fuel`
nested calls. The candidate list passed to all 8 recursive calls is the
unchanged `volumes` parameter, as in the source. -/
def buildFuel : Nat → IVec3 → IVec3 → List Volume → Option OctreeCell
  | 0, _, _, _ => none
  | fuel + 1, minBound, maxBound, volumes =>
    if 8 ≤ (volumes.filter (overlaps minBound maxBound)).length then
      (buildFuel fuel (subregionMin minBound maxBound 0) (subregionMax minBound maxBound 0) volumes).bind fun a =>
      (buildFuel fuel (subregionMin minBound maxBound 1) (subregionMax minBound maxBound 1) volumes).bind fun b =>
      (buildFuel fuel (subregionMin minBound maxBound 2) (subregionMax minBound maxBound 2) volumes).bind fun c =>
      (buildFuel fuel (subregionMin minBound maxBound 3) (subregionMax minBound maxBound 3) volumes).bind fun d =>
      (buildFuel fuel (subregionMin minBound maxBound 4) (subregionMax minBound maxBound 4) volumes).bind fun e =>
      (buildFuel fuel (subregionMin minBound maxBound 5) (subregionMax minBound maxBound 5) volumes).bind fun f =>
      (buildFuel fuel (subregionMin minBound maxBound 6) (subregionMax minBound maxBound 6) volumes).bind fun g =>
      (buildFuel fuel (subregionMin minBound maxBound 7) (subregionMax minBound maxBound 7) volumes).bind fun h =>
      some (OctreeCell.EmptyCell a b c d e f g h)
    else if (volumes.filter (overlaps minBound maxBound)).length = 0 then
      some OctreeCell.EmptyChildlessCell
    else
      some (OctreeCell.FilledCell (volumes.filter (overlaps minBound maxBound)))

/-- The fold computing `min_bound` in `Octree::new` line 20:
`volumes.iter().fold(IVec3::ZERO, |a, b| a.min(b.min()))`. -/
def computeMinBound (volumes : List Volume) : IVec3 :=
  volumes.foldl (fun a b => a.minv b.min) IVec3.zero

/-- The fold computing `max_bound` in `Octree::new` line 21:
`volumes.iter().fold(IVec3::ZERO, |a, b| a.max(b.max()))`. -/
def computeMaxBound (volumes : List Volume) : IVec3 :=
  volumes.foldl (fun a b => a.maxv b.max) IVec3.zero

/-- The per-axis parity adjustment of `min_bound` in `Octree::new`
lines 28-36: each odd component is decremented by 1. -/
def normalizeMin (a : IVec3) : IVec3 :=
  ⟨if a.x % 2 ≠ 0 then a.x - 1 else a.x,
   if a.y % 2 ≠ 0 then a.y - 1 else a.y,
   if a.z % 2 ≠ 0 then a.z - 1 else a.z⟩

/-- The per-axis parity adjustment of `max_bound` in `Octree::new`
lines 38-46: each odd component is incremented by 1. -/
def normalizeMax (a : IVec3) : IVec3 :=
  ⟨if a.x % 2 ≠ 0 then a.x + 1 else a.x,
   if a.y % 2 ≠ 0 then a.y + 1 else a.y,
   if a.z % 2 ≠ 0 then a.z + 1 else a.z⟩

/-- Outcome of `Octree::new` in the embedding: a built root cell, the
`debug_assert_ne!` firing on equal bounds, or the fuel running out (the
source recursion not having finished within the given bound). -/
inductive BuildResult where
  | ok (root : OctreeCell) : BuildResult
  | assertionFailed : BuildResult
  | outOfFuel : BuildResult
deriving DecidableEq, Repr

/-- Embedding of `Octree::new` (lines 19-54): compute the zero-seeded
min/max bounds, check the `debug_assert_ne!` (which compares the two
bounds as whole vectors, before the parity adjustment), adjust parities,
then build recursively from the normalized bounds with the full volume
list. -/
def octreeNew (fuel : Nat) (volumes : List Volume) : BuildResult :=
  if computeMinBound volumes = computeMaxBound volumes then
    BuildResult.assertionFailed
  else
    match buildFuel fuel (normalizeMin (computeMinBound volumes))
        (normalizeMax (computeMaxBound volumes)) volumes with
    | some root => BuildResult.ok root
    | none => BuildResult.outOfFuel

/-- Eight identical volumes all containing the closed box from the origin to
`(2,2,2)`. Their combined bound has non-zero span on every axis, yet
building recurses forever (see `octree_new_diverges`). -/
def vols8 : List Volume := List.replicate 8 ⟨⟨0, 0, 0⟩, ⟨2, 2, 2⟩⟩

/-- Eight identical volumes spanning the box from `(1,1,1)` to `(3,3,3)`.
Their zero-seeded normalized bound is the region from `(0,0,0)` to
`(4,4,4)`, and the build subdivides that region and terminates. -/
def vols8b : List Volume := List.replicate 8 ⟨⟨1, 1, 1⟩, ⟨3, 3, 3⟩⟩

/-- A single volume whose combined bound has zero span on the x and y axes
but non-zero span on z. -/
def vols1 : List Volume := [⟨⟨0, 0, 0⟩, ⟨0, 0, 2⟩⟩]

/-- A point lies in the closed axis-aligned box with the given corners. -/
def inBox (minBound maxBound p : IVec3) : Bool :=
  minBound.x ≤ p.x && p.x ≤ maxBound.x
    && minBound.y ≤ p.y && p.y ≤ maxBound.y
    && minBound.z ≤ p.z && p.z ≤ maxBound.z

/-- The build result is a successfully built root with 8 children. -/
def BuildResult.rootSubdivided : BuildResult → Bool
  | BuildResult.ok (OctreeCell.EmptyCell _ _ _ _ _ _ _ _) => true
  | _ => false

/-- Claim C1 (code bug): in the subdivision of the region from `(0,0,0)` to
`(4,4,4)` — a subdivision actually performed at the root of the build for
`vols8b` — the code computes octant 1 (x offset bit set) as the box from
`(-2,0,0)` to `(0,2,2)`, not the upper x half from `(2,0,0)` to `(4,2,2)`:
the offset term is `corner_offset * (midpoint - max_bound)`, which points
below `region_min` instead of above `midpoint`. Consequently the 8 children
do not partition the parent region: the parent point `(3,3,3)` lies in no
child region, while `(0,0,0)` lies in both child 0 and child 1. -/
theorem build_octants_escape_parent :
    subregionMin ⟨0, 0, 0⟩ ⟨4, 4, 4⟩ 1 = ⟨-2, 0, 0⟩ ∧
    subregionMax ⟨0, 0, 0⟩ ⟨4, 4, 4⟩ 1 = ⟨0, 2, 2⟩ ∧
    inBox ⟨0, 0, 0⟩ ⟨4, 4, 4⟩ ⟨3, 3, 3⟩ = true ∧
    ((List.range 8).all fun i =>
      !(inBox (subregionMin ⟨0, 0, 0⟩ ⟨4, 4, 4⟩ i)
        (subregionMax ⟨0, 0, 0⟩ ⟨4, 4, 4⟩ i) ⟨3, 3, 3⟩)) = true ∧
    inBox (subregionMin ⟨0, 0, 0⟩ ⟨4, 4, 4⟩ 0)
      (subregionMax ⟨0, 0, 0⟩ ⟨4, 4, 4⟩ 0) ⟨0, 0, 0⟩ = true ∧
    inBox (subregionMin ⟨0, 0, 0⟩ ⟨4, 4, 4⟩ 1)
      (subregionMax ⟨0, 0, 0⟩ ⟨4, 4, 4⟩ 1) ⟨0, 0, 0⟩ = true ∧
    normalizeMin (computeMinBound vols8b) = ⟨0, 0, 0⟩ ∧
    normalizeMax (computeMaxBound vols8b) = ⟨4, 4, 4⟩ ∧
    8 ≤ (vols8b.filter (overlaps ⟨0, 0, 0⟩ ⟨4, 4, 4⟩)).length ∧
    BuildResult.rootSubdivided (octreeNew 10 vols8b) = true := by
  decide

/-- Claim C3 counterexample: for `vols1` the combined bound has zero span on
the x axis (both corners have x = 0), yet the `debug_assert_ne!` does not
fire — it compares the two bound vectors as wholes — and construction
succeeds, producing a filled root. -/
theorem zero_span_axis_no_assert :
    (computeMinBound vols1).x = (computeMaxBound vols1).x ∧
    (computeMinBound vols1).y = (computeMaxBound vols1).y ∧
    octreeNew 5 vols1 = BuildResult.ok (OctreeCell.FilledCell vols1) := by
  decide

/-- Claim C3 (amended): the assertion in `Octree::new` fires exactly when
the zero-seeded combined bound has its min corner equal to its max corner
on all three axes simultaneously (vector equality, checked before the
parity adjustment); zero span on only some axes does not fire it, and for
inputs with non-zero span on every axis it never fires. -/
theorem octree_assert_iff_bounds_eq (fuel : Nat) (volumes : List Volume) :
    octreeNew fuel volumes = BuildResult.assertionFailed ↔
      computeMinBound volumes = computeMaxBound volumes := by
  unfold octreeNew
  by_cases h : computeMinBound volumes = computeMaxBound volumes
  · simp [h]
  · rw [if_neg h]
    rcases hb : buildFuel fuel (normalizeMin (computeMinBound volumes))
        (normalizeMax (computeMaxBound volumes)) volumes with _ | root
    · simp [h]
    · simp [h]

/-- Witness for `octree_assert_iff_bounds_eq` at the concrete input
`vols8`: construction with these bounds does not report an assertion
failure, and indeed the bounds differ. -/
theorem octree_assert_iff_bounds_eq_witness :
    ¬(octreeNew 3 vols8 = BuildResult.assertionFailed) :=
  fun h => absurd ((octree_assert_iff_bounds_eq 3 vols8).mp h) (by decide)

/-- At the degenerate region whose min and max corners are both the origin,
octant 0 of the subdivision is that same region again, and all eight
volumes of `vols8` still overlap it, so the recursion reproduces itself:
no amount of fuel completes it. -/
theorem buildFuel_point_none : ∀ fuel : Nat,
    buildFuel fuel ⟨0, 0, 0⟩ ⟨0, 0, 0⟩ vols8 = none := by
  intro fuel
  induction fuel with
  | zero => rfl
  | succ n ih =>
    rw [buildFuel, if_pos (by decide),
      show subregionMin ⟨0, 0, 0⟩ ⟨0, 0, 0⟩ 0 = ⟨0, 0, 0⟩ from by decide,
      show subregionMax ⟨0, 0, 0⟩ ⟨0, 0, 0⟩ 0 = ⟨0, 0, 0⟩ from by decide,
      ih]
    rfl

/-- The region from the origin to `(1,1,1)` recurses (octant 0) into the
degenerate point region at the origin, hence also never completes. -/
theorem buildFuel_unit_none : ∀ fuel : Nat,
    buildFuel fuel ⟨0, 0, 0⟩ ⟨1, 1, 1⟩ vols8 = none := by
  intro fuel
  cases fuel with
  | zero => rfl
  | succ n =>
    rw [buildFuel, if_pos (by decide),
      show subregionMin ⟨0, 0, 0⟩ ⟨1, 1, 1⟩ 0 = ⟨0, 0, 0⟩ from by decide,
      show subregionMax ⟨0, 0, 0⟩ ⟨1, 1, 1⟩ 0 = ⟨0, 0, 0⟩ from by decide,
      buildFuel_point_none n]
    rfl

/-- The normalized root region of `vols8`, from the origin to `(2,2,2)`,
recurses (octant 0) into the region up to `(1,1,1)`, hence never
completes. -/
theorem buildFuel_root_none : ∀ fuel : Nat,
    buildFuel fuel ⟨0, 0, 0⟩ ⟨2, 2, 2⟩ vols8 = none := by
  intro fuel
  cases fuel with
  | zero => rfl
  | succ n =>
    rw [buildFuel, if_pos (by decide),
      show subregionMin ⟨0, 0, 0⟩ ⟨2, 2, 2⟩ 0 = ⟨0, 0, 0⟩ from by decide,
      show subregionMax ⟨0, 0, 0⟩ ⟨2, 2, 2⟩ 0 = ⟨1, 1, 1⟩ from by decide,
      buildFuel_unit_none n]
    rfl

/-- Claim C2 (code bug): `vols8` is a non-empty volume set whose combined
bound spans from the origin to `(2,2,2)` — non-zero span on every axis —
yet construction never terminates: for every fuel bound the recursion is
still incomplete, because subdivision does not strictly shrink the region
(octant 0 of the degenerate point region reached after two steps is that
region itself, with the same overlap count of 8). -/
theorem octree_new_diverges : ∀ fuel : Nat,
    octreeNew fuel vols8 = BuildResult.outOfFuel := by
  intro fuel
  unfold octreeNew
  rw [if_neg (by decide),
    show normalizeMin (computeMinBound vols8) = ⟨0, 0, 0⟩ from by decide,
    show normalizeMax (computeMaxBound vols8) = ⟨2, 2, 2⟩ from by decide,
    buildFuel_root_none fuel]

/-- Witness for `octree_new_diverges` at a concrete fuel bound. -/
theorem octree_new_diverges_witness :
    octreeNew 50 vols8 = BuildResult.outOfFuel :=
  octree_new_diverges 50

/-- A property `P` of a cell and the region it was built for holds at every
cell of a tree, when the tree hangs from the given region: children are
checked at the octant regions the builder derives for them. -/
def AllCells (P : OctreeCell → IVec3 → IVec3 → Prop) :
    OctreeCell → IVec3 → IVec3 → Prop
  | OctreeCell.EmptyCell a b c d e f g h, minBound, maxBound =>
      P (OctreeCell.EmptyCell a b c d e f g h) minBound maxBound ∧
      AllCells P a (subregionMin minBound maxBound 0) (subregionMax minBound maxBound 0) ∧
      AllCells P b (subregionMin minBound maxBound 1) (subregionMax minBound maxBound 1) ∧
      AllCells P c (subregionMin minBound maxBound 2) (subregionMax minBound maxBound 2) ∧
      AllCells P d (subregionMin minBound maxBound 3) (subregionMax minBound maxBound 3) ∧
      AllCells P e (subregionMin minBound maxBound 4) (subregionMax minBound maxBound 4) ∧
      AllCells P f (subregionMin minBound maxBound 5) (subregionMax minBound maxBound 5) ∧
      AllCells P g (subregionMin minBound maxBound 6) (subregionMax minBound maxBound 6) ∧
      AllCells P h (subregionMin minBound maxBound 7) (subregionMax minBound maxBound 7)
  | cell, minBound, maxBound => P cell minBound maxBound

/-- The local shape of every cell the builder produces for a region: a
filled cell carries exactly the overlap filter of the candidate list and
has between 1 and 7 entries, a childless cell has overlap count 0, and a
subdivided cell has overlap count at least 8. -/
def NodeInv (volumes : List Volume) (cell : OctreeCell) (minBound maxBound : IVec3) : Prop :=
  match cell with
  | OctreeCell.FilledCell payload =>
      payload = volumes.filter (overlaps minBound maxBound) ∧
      1 ≤ payload.length ∧ payload.length ≤ 7
  | OctreeCell.EmptyChildlessCell =>
      (volumes.filter (overlaps minBound maxBound)).length = 0
  | OctreeCell.EmptyCell _ _ _ _ _ _ _ _ =>
      8 ≤ (volumes.filter (overlaps minBound maxBound)).length

theorem AllCells.mono {P Q : OctreeCell → IVec3 → IVec3 → Prop}
    (hPQ : ∀ cell minBound maxBound, P cell minBound maxBound → Q cell minBound maxBound) :
    ∀ (cell : OctreeCell) (minBound maxBound : IVec3),
      AllCells P cell minBound maxBound → AllCells Q cell minBound maxBound := by
  intro cell
  induction cell with
  | FilledCell payload => intro mn mx h; exact hPQ _ _ _ h
  | EmptyChildlessCell => intro mn mx h; exact hPQ _ _ _ h
  | EmptyCell ca cb cc cd ce cf cg ch iha ihb ihc ihd ihe ihf ihg ihh =>
    intro mn mx h
    simp only [AllCells] at h ⊢
    exact ⟨hPQ _ _ _ h.1, iha _ _ h.2.1, ihb _ _ h.2.2.1, ihc _ _ h.2.2.2.1,
      ihd _ _ h.2.2.2.2.1, ihe _ _ h.2.2.2.2.2.1, ihf _ _ h.2.2.2.2.2.2.1,
      ihg _ _ h.2.2.2.2.2.2.2.1, ihh _ _ h.2.2.2.2.2.2.2.2⟩

/-- Soundness of the builder against `NodeInv`, at every cell of the
produced tree. -/
theorem buildFuel_allCells (volumes : List Volume) :
    ∀ (fuel : Nat) (minBound maxBound : IVec3) (cell : OctreeCell),
      buildFuel fuel minBound maxBound volumes = some cell →
      AllCells (NodeInv volumes) cell minBound maxBound := by
  intro fuel
  induction fuel with
  | zero =>
    intro mn mx cell h
    exact absurd h (by simp [buildFuel])
  | succ n ih =>
    intro mn mx cell h
    rw [buildFuel] at h
    by_cases h8 : 8 ≤ (volumes.filter (overlaps mn mx)).length
    · rw [if_pos h8] at h
      simp only [Option.bind_eq_some] at h
      obtain ⟨ca, hca, cb, hcb, cc, hcc, cd, hcd, ce, hce, cf, hcf, cg, hcg, ch, hch, h⟩ := h
      injection h with h
      subst h
      simp only [AllCells]
      exact ⟨h8, ih _ _ _ hca, ih _ _ _ hcb, ih _ _ _ hcc, ih _ _ _ hcd,
        ih _ _ _ hce, ih _ _ _ hcf, ih _ _ _ hcg, ih _ _ _ hch⟩
    · rw [if_neg h8] at h
      by_cases h0 : (volumes.filter (overlaps mn mx)).length = 0
      · rw [if_pos h0] at h
        injection h with h
        subst h
        exact h0
      · rw [if_neg h0] at h
        injection h with h
        subst h
        exact ⟨rfl, by omega, by omega⟩

/-- The per-axis closed-interval overlap condition as a proposition,
spelled as in the specification: on each axis the region min must not
exceed the volume max and the region max must not fall below the volume
min. -/
def OverlapP (minBound maxBound : IVec3) (v : Volume) : Prop :=
  minBound.x ≤ v.max.x ∧ maxBound.x ≥ v.min.x ∧
  minBound.y ≤ v.max.y ∧ maxBound.y ≥ v.min.y ∧
  minBound.z ≤ v.max.z ∧ maxBound.z ≥ v.min.z

theorem overlaps_iff (minBound maxBound : IVec3) (v : Volume) :
    overlaps minBound maxBound v = true ↔ OverlapP minBound maxBound v := by
  simp [overlaps, OverlapP, Bool.and_eq_true, decide_eq_true_iff, and_assoc]

/-- Local property for claim C4: a filled cell carries exactly the members
of the candidate list that satisfy the closed-interval per-axis overlap
test against its region. -/
def FilledExact (volumes : List Volume) (cell : OctreeCell) (minBound maxBound : IVec3) : Prop :=
  match cell with
  | OctreeCell.FilledCell payload =>
      payload = volumes.filter (overlaps minBound maxBound) ∧
      ∀ v : Volume, v ∈ payload ↔ v ∈ volumes ∧ OverlapP minBound maxBound v
  | _ => True

/-- Claim C4: at every cell of any tree the builder produces, the filled
payload is exactly the sublist of the input volumes whose boxes satisfy
closed-interval per-axis AABB overlap with that cell's region — and since
the builder passes the unchanged input list to every recursive call, the
candidate set at every recursion level is the full input list. -/
theorem build_filled_payload_exact (fuel : Nat) (minBound maxBound : IVec3)
    (volumes : List Volume) (cell : OctreeCell)
    (h : buildFuel fuel minBound maxBound volumes = some cell) :
    AllCells (FilledExact volumes) cell minBound maxBound := by
  refine AllCells.mono ?_ cell minBound maxBound (buildFuel_allCells volumes fuel minBound maxBound cell h)
  intro c2 mn mx hinv
  cases c2 with
  | FilledCell payload =>
    simp only [NodeInv] at hinv
    simp only [FilledExact]
    obtain ⟨hp, _, _⟩ := hinv
    refine ⟨hp, ?_⟩
    intro v
    subst hp
    simp [List.mem_filter, overlaps_iff]
  | EmptyCell ca cb cc cd ce cf cg ch => trivial
  | EmptyChildlessCell => trivial

/-- Witness for `build_filled_payload_exact`: the single-volume input
`vols1` builds a filled root over the region from the origin to `(0,0,2)`,
and the theorem applies to it. -/
theorem build_filled_payload_exact_witness :
    AllCells (FilledExact vols1) (OctreeCell.FilledCell vols1) ⟨0, 0, 0⟩ ⟨0, 0, 2⟩ :=
  build_filled_payload_exact 1 ⟨0, 0, 0⟩ ⟨0, 0, 2⟩ vols1 (OctreeCell.FilledCell vols1) rfl

/-- The cell is a filled leaf. -/
def OctreeCell.isFilled : OctreeCell → Bool
  | OctreeCell.FilledCell _ => true
  | _ => false

/-- The cell is an empty cell with 8 children. -/
def OctreeCell.isSubdivided : OctreeCell → Bool
  | OctreeCell.EmptyCell _ _ _ _ _ _ _ _ => true
  | _ => false

/-- The cell is the childless empty leaf. -/
def OctreeCell.isChildless : OctreeCell → Bool
  | OctreeCell.EmptyChildlessCell => true
  | _ => false

/-- Number of volumes held by the cell (0 for both empty variants). -/
def OctreeCell.payloadLength : OctreeCell → Nat
  | OctreeCell.FilledCell payload => payload.length
  | _ => 0

/-- Local property for claim C5, with the threshold fixed at the source's
value 8: the cell variant is determined by the overlap count of its
region — at least 8 gives a subdivided cell, zero gives the childless
leaf, 1 to 7 gives a filled leaf — and a filled leaf holds between 1 and 8
volumes inclusive. -/
def DecisionSpec (volumes : List Volume) (cell : OctreeCell) (minBound maxBound : IVec3) : Prop :=
  (cell.isSubdivided = true ↔ 8 ≤ (volumes.filter (overlaps minBound maxBound)).length) ∧
  (cell.isChildless = true ↔ (volumes.filter (overlaps minBound maxBound)).length = 0) ∧
  (cell.isFilled = true ↔
    1 ≤ (volumes.filter (overlaps minBound maxBound)).length ∧
    (volumes.filter (overlaps minBound maxBound)).length ≤ 7) ∧
  (cell.isFilled = true → 1 ≤ cell.payloadLength ∧ cell.payloadLength ≤ 8)

/-- Claim C5: at every cell of any tree the builder produces, the variant
is decided by the region's overlap count against the fixed threshold 8 —
count at least 8 gives the empty cell with 8 children, count zero the
childless empty cell, and count 1 to 7 the filled cell — so every filled
cell holds between 1 and 8 volumes inclusive (in fact at most 7), every
childless cell zero, and every subdivided cell's count is at least 8. -/
theorem build_decision_spec (fuel : Nat) (minBound maxBound : IVec3)
    (volumes : List Volume) (cell : OctreeCell)
    (h : buildFuel fuel minBound maxBound volumes = some cell) :
    AllCells (DecisionSpec volumes) cell minBound maxBound := by
  refine AllCells.mono ?_ cell minBound maxBound (buildFuel_allCells volumes fuel minBound maxBound cell h)
  intro c2 mn mx hinv
  cases c2 with
  | FilledCell payload =>
    simp only [NodeInv] at hinv
    obtain ⟨hp, h1, h7⟩ := hinv
    subst hp
    refine ⟨iff_of_false (by simp [OctreeCell.isSubdivided]) (by omega),
      iff_of_false (by simp [OctreeCell.isChildless]) (by omega),
      iff_of_true rfl ⟨h1, h7⟩, ?_⟩
    intro _
    simp only [OctreeCell.payloadLength]
    omega
  | EmptyCell ca cb cc cd ce cf cg ch =>
    simp only [NodeInv] at hinv
    refine ⟨iff_of_true rfl hinv,
      iff_of_false (by simp [OctreeCell.isChildless]) (by omega),
      iff_of_false (by simp [OctreeCell.isFilled]) (by omega), ?_⟩
    intro hc
    exact absurd hc (by simp [OctreeCell.isFilled])
  | EmptyChildlessCell =>
    simp only [NodeInv] at hinv
    refine ⟨iff_of_false (by simp [OctreeCell.isSubdivided]) (by omega),
      iff_of_true rfl hinv,
      iff_of_false (by simp [OctreeCell.isFilled]) (by omega), ?_⟩
    intro hc
    exact absurd hc (by simp [OctreeCell.isFilled])

/-- Witness for `build_decision_spec`: applied to the filled root built
from `vols1`. -/
theorem build_decision_spec_witness :
    AllCells (DecisionSpec vols1) (OctreeCell.FilledCell vols1) ⟨0, 0, 0⟩ ⟨0, 0, 2⟩ :=
  build_decision_spec 1 ⟨0, 0, 0⟩ ⟨0, 0, 2⟩ vols1 (OctreeCell.FilledCell vols1) rfl

/-- Local property for claim C10: a filled payload is the overlap filter of
the input list, hence an order-preserving sublist of the caller-supplied
input collection. -/
def PayloadOrdered (volumes : List Volume) (cell : OctreeCell) (minBound maxBound : IVec3) : Prop :=
  match cell with
  | OctreeCell.FilledCell payload =>
      List.Sublist payload volumes ∧ payload = volumes.filter (overlaps minBound maxBound)
  | _ => True

/-- Claim C10: at every cell of any tree the builder produces, a filled
cell lists its volumes in the same relative order as the caller-supplied
input collection: the payload is the overlap filter of the input list,
which is an order-preserving sublist of it. -/
theorem build_payload_ordered (fuel : Nat) (minBound maxBound : IVec3)
    (volumes : List Volume) (cell : OctreeCell)
    (h : buildFuel fuel minBound maxBound volumes = some cell) :
    AllCells (PayloadOrdered volumes) cell minBound maxBound := by
  refine AllCells.mono ?_ cell minBound maxBound (buildFuel_allCells volumes fuel minBound maxBound cell h)
  intro c2 mn mx hinv
  cases c2 with
  | FilledCell payload =>
    simp only [NodeInv] at hinv
    obtain ⟨hp, _, _⟩ := hinv
    subst hp
    exact ⟨List.filter_sublist volumes, rfl⟩
  | EmptyCell ca cb cc cd ce cf cg ch => trivial
  | EmptyChildlessCell => trivial

/-- Witness for `build_payload_ordered`: applied to the filled root built
from `vols1`. -/
theorem build_payload_ordered_witness :
    AllCells (PayloadOrdered vols1) (OctreeCell.FilledCell vols1) ⟨0, 0, 0⟩ ⟨0, 0, 2⟩ :=
  build_payload_ordered 1 ⟨0, 0, 0⟩ ⟨0, 0, 2⟩ vols1 (OctreeCell.FilledCell vols1) rfl

theorem IVec3.ext3 {a b : IVec3} (hx : a.x = b.x) (hy : a.y = b.y) (hz : a.z = b.z) :
    a = b := by
  cases a
  cases b
  simp only [IVec3.mk.injEq]
  exact ⟨hx, hy, hz⟩

theorem IVec3.le_refl (a : IVec3) : a ≤ a :=
  ⟨Int.le_refl _, Int.le_refl _, Int.le_refl _⟩

theorem IVec3.le_trans3 {a b c : IVec3} (h1 : a ≤ b) (h2 : b ≤ c) : a ≤ c :=
  ⟨Int.le_trans h1.1 h2.1, Int.le_trans h1.2.1 h2.2.1, Int.le_trans h1.2.2 h2.2.2⟩

theorem IVec3.minv_le_left (a b : IVec3) : IVec3.minv a b ≤ a :=
  ⟨Int.min_le_left _ _, Int.min_le_left _ _, Int.min_le_left _ _⟩

theorem IVec3.minv_le_right (a b : IVec3) : IVec3.minv a b ≤ b :=
  ⟨Int.min_le_right _ _, Int.min_le_right _ _, Int.min_le_right _ _⟩

theorem IVec3.le_minv {c a b : IVec3} (ha : c ≤ a) (hb : c ≤ b) : c ≤ IVec3.minv a b :=
  ⟨le_min ha.1 hb.1, le_min ha.2.1 hb.2.1, le_min ha.2.2 hb.2.2⟩

theorem IVec3.left_le_maxv (a b : IVec3) : a ≤ IVec3.maxv a b :=
  ⟨Int.le_max_left _ _, Int.le_max_left _ _, Int.le_max_left _ _⟩

theorem IVec3.right_le_maxv (a b : IVec3) : b ≤ IVec3.maxv a b :=
  ⟨Int.le_max_right _ _, Int.le_max_right _ _, Int.le_max_right _ _⟩

theorem IVec3.maxv_le {c a b : IVec3} (ha : a ≤ c) (hb : b ≤ c) : IVec3.maxv a b ≤ c :=
  ⟨max_le ha.1 hb.1, max_le ha.2.1 hb.2.1, max_le ha.2.2 hb.2.2⟩

theorem foldl_minv_le_init :
    ∀ (volumes : List Volume) (init : IVec3),
      volumes.foldl (fun a b => a.minv b.min) init ≤ init := by
  intro volumes
  induction volumes with
  | nil => intro init; exact IVec3.le_refl init
  | cons w ws ih =>
    intro init
    exact IVec3.le_trans3 (ih _) (IVec3.minv_le_left _ _)

theorem foldl_minv_le_mem :
    ∀ (volumes : List Volume) (init : IVec3) (v : Volume), v ∈ volumes →
      volumes.foldl (fun a b => a.minv b.min) init ≤ v.min := by
  intro volumes
  induction volumes with
  | nil => intro init v hv; cases hv
  | cons w ws ih =>
    intro init v hv
    rcases List.mem_cons.mp hv with rfl | hv
    · exact IVec3.le_trans3 (foldl_minv_le_init ws _) (IVec3.minv_le_right _ _)
    · exact ih _ v hv

theorem le_foldl_minv :
    ∀ (volumes : List Volume) (init c : IVec3), c ≤ init →
      (∀ v ∈ volumes, c ≤ v.min) →
      c ≤ volumes.foldl (fun a b => a.minv b.min) init := by
  intro volumes
  induction volumes with
  | nil => intro init c h _; exact h
  | cons w ws ih =>
    intro init c h hall
    exact ih _ _ (IVec3.le_minv h (hall w (List.mem_cons_self w ws)))
      (fun v hv => hall v (List.mem_cons_of_mem _ hv))

theorem init_le_foldl_maxv :
    ∀ (volumes : List Volume) (init : IVec3),
      init ≤ volumes.foldl (fun a b => a.maxv b.max) init := by
  intro volumes
  induction volumes with
  | nil => intro init; exact IVec3.le_refl init
  | cons w ws ih =>
    intro init
    exact IVec3.le_trans3 (IVec3.left_le_maxv _ _) (ih _)

theorem mem_le_foldl_maxv :
    ∀ (volumes : List Volume) (init : IVec3) (v : Volume), v ∈ volumes →
      v.max ≤ volumes.foldl (fun a b => a.maxv b.max) init := by
  intro volumes
  induction volumes with
  | nil => intro init v hv; cases hv
  | cons w ws ih =>
    intro init v hv
    rcases List.mem_cons.mp hv with rfl | hv
    · exact IVec3.le_trans3 (IVec3.right_le_maxv _ _) (init_le_foldl_maxv ws _)
    · exact ih _ v hv

theorem foldl_maxv_le :
    ∀ (volumes : List Volume) (init c : IVec3), init ≤ c →
      (∀ v ∈ volumes, v.max ≤ c) →
      volumes.foldl (fun a b => a.maxv b.max) init ≤ c := by
  intro volumes
  induction volumes with
  | nil => intro init c h _; exact h
  | cons w ws ih =>
    intro init c h hall
    exact ih _ _ (IVec3.maxv_le h (hall w (List.mem_cons_self w ws)))
      (fun v hv => hall v (List.mem_cons_of_mem _ hv))

/-- All three components are even. -/
def IVec3.EvenAll (a : IVec3) : Prop := a.x % 2 = 0 ∧ a.y % 2 = 0 ∧ a.z % 2 = 0

theorem normalizeMin_evenAll (a : IVec3) : (normalizeMin a).EvenAll := by
  simp only [normalizeMin, IVec3.EvenAll]
  refine ⟨?_, ?_, ?_⟩ <;> split <;> omega

theorem normalizeMax_evenAll (a : IVec3) : (normalizeMax a).EvenAll := by
  simp only [normalizeMax, IVec3.EvenAll]
  refine ⟨?_, ?_, ?_⟩ <;> split <;> omega

theorem normalizeMin_le (a : IVec3) : normalizeMin a ≤ a := by
  simp only [normalizeMin, IVec3.le_def]
  refine ⟨?_, ?_, ?_⟩ <;> split <;> omega

theorem le_normalizeMax (a : IVec3) : a ≤ normalizeMax a := by
  simp only [normalizeMax, IVec3.le_def]
  refine ⟨?_, ?_, ?_⟩ <;> split <;> omega

theorem le_normalizeMin_add_one (a : IVec3) : a ≤ normalizeMin a + IVec3.splat 1 := by
  simp only [normalizeMin, IVec3.le_def, IVec3.add_x, IVec3.add_y, IVec3.add_z,
    IVec3.splat_x, IVec3.splat_y, IVec3.splat_z]
  refine ⟨?_, ?_, ?_⟩ <;> split <;> omega

theorem normalizeMax_le_add_one (a : IVec3) : normalizeMax a ≤ a + IVec3.splat 1 := by
  simp only [normalizeMax, IVec3.le_def, IVec3.add_x, IVec3.add_y, IVec3.add_z,
    IVec3.splat_x, IVec3.splat_y, IVec3.splat_z]
  refine ⟨?_, ?_, ?_⟩ <;> split <;> omega

/-- Claim C6: the root bounds are the zero-seeded componentwise folds —
`computeMinBound` is the greatest vector below the zero vector and below
every volume's min corner, `computeMaxBound` the least vector above the
zero vector and above every volume's max corner — the parity adjustment
moves each corner by at most 1 outward and only when the component is odd,
both normalized corners are even on every axis, and the midpoint of the
normalized corners is exact: twice the midpoint reconstructs the corner
sum, with no rounding. -/
theorem bounds_normalizer_spec (volumes : List Volume) :
    (computeMinBound volumes ≤ IVec3.zero ∧
      (∀ v ∈ volumes, computeMinBound volumes ≤ v.min) ∧
      ∀ c : IVec3, c ≤ IVec3.zero → (∀ v ∈ volumes, c ≤ v.min) →
        c ≤ computeMinBound volumes) ∧
    (IVec3.zero ≤ computeMaxBound volumes ∧
      (∀ v ∈ volumes, v.max ≤ computeMaxBound volumes) ∧
      ∀ c : IVec3, IVec3.zero ≤ c → (∀ v ∈ volumes, v.max ≤ c) →
        computeMaxBound volumes ≤ c) ∧
    (normalizeMin (computeMinBound volumes) ≤ computeMinBound volumes ∧
      computeMinBound volumes ≤ normalizeMin (computeMinBound volumes) + IVec3.splat 1) ∧
    (computeMaxBound volumes ≤ normalizeMax (computeMaxBound volumes) ∧
      normalizeMax (computeMaxBound volumes) ≤ computeMaxBound volumes + IVec3.splat 1) ∧
    (normalizeMin (computeMinBound volumes)).EvenAll ∧
    (normalizeMax (computeMaxBound volumes)).EvenAll ∧
    IVec3.splat 2 * regionMidpoint (normalizeMin (computeMinBound volumes))
        (normalizeMax (computeMaxBound volumes)) =
      normalizeMin (computeMinBound volumes) + normalizeMax (computeMaxBound volumes) := by
  refine ⟨⟨foldl_minv_le_init volumes _, fun v hv => foldl_minv_le_mem volumes _ v hv,
      fun c hc hall => le_foldl_minv volumes _ c hc hall⟩,
    ⟨init_le_foldl_maxv volumes _, fun v hv => mem_le_foldl_maxv volumes _ v hv,
      fun c hc hall => foldl_maxv_le volumes _ c hc hall⟩,
    ⟨normalizeMin_le _, le_normalizeMin_add_one _⟩,
    ⟨le_normalizeMax _, normalizeMax_le_add_one _⟩,
    normalizeMin_evenAll _, normalizeMax_evenAll _, ?_⟩
  obtain ⟨hx1, hy1, hz1⟩ := normalizeMin_evenAll (computeMinBound volumes)
  obtain ⟨hx2, hy2, hz2⟩ := normalizeMax_evenAll (computeMaxBound volumes)
  refine IVec3.ext3 ?_ ?_ ?_ <;>
    simp only [regionMidpoint, IVec3.mul_x, IVec3.mul_y, IVec3.mul_z, IVec3.divEuclid_x,
      IVec3.divEuclid_y, IVec3.divEuclid_z, IVec3.add_x, IVec3.add_y, IVec3.add_z,
      IVec3.splat_x, IVec3.splat_y, IVec3.splat_z] <;> omega

/-- Witness for `bounds_normalizer_spec` at the concrete input `vols8b`:
the normalized corners are even on every axis. -/
theorem bounds_normalizer_spec_witness :
    (normalizeMin (computeMinBound vols8b)).EvenAll ∧
    (normalizeMax (computeMaxBound vols8b)).EvenAll :=
  ⟨(bounds_normalizer_spec vols8b).2.2.2.2.1, (bounds_normalizer_spec vols8b).2.2.2.2.2.1⟩

theorem cornerOffset_mem (i : Nat) :
    ((cornerOffset i).x = 0 ∨ (cornerOffset i).x = 1) ∧
    ((cornerOffset i).y = 0 ∨ (cornerOffset i).y = 1) ∧
    ((cornerOffset i).z = 0 ∨ (cornerOffset i).z = 1) := by
  refine ⟨?_, ?_, ?_⟩
  · show Int.ofNat (i &&& 1) = 0 ∨ Int.ofNat (i &&& 1) = 1
    rw [Nat.and_one_is_mod]
    rcases Nat.mod_two_eq_zero_or_one i with h | h <;> rw [h] <;> simp
  · show Int.ofNat ((i >>> 1) &&& 1) = 0 ∨ Int.ofNat ((i >>> 1) &&& 1) = 1
    rw [Nat.and_one_is_mod]
    rcases Nat.mod_two_eq_zero_or_one (i >>> 1) with h | h <;> rw [h] <;> simp
  · show Int.ofNat ((i >>> 2) &&& 1) = 0 ∨ Int.ofNat ((i >>> 2) &&& 1) = 1
    rw [Nat.and_one_is_mod]
    rcases Nat.mod_two_eq_zero_or_one (i >>> 2) with h | h <;> rw [h] <;> simp

/-- Each octant's corners stay at or below the parent corners: the computed
octant min never exceeds the region min, the octant max never exceeds the
region max, and the octant is a well-ordered box. This is the geometric
fact behind `buildFiltered_eq`: regions drift downward, never upward. -/
theorem subregion_le (minBound maxBound : IVec3) (i : Nat) (h : minBound ≤ maxBound) :
    subregionMin minBound maxBound i ≤ minBound ∧
    subregionMax minBound maxBound i ≤ maxBound ∧
    subregionMin minBound maxBound i ≤ subregionMax minBound maxBound i := by
  obtain ⟨hcx, hcy, hcz⟩ := cornerOffset_mem i
  obtain ⟨hx, hy, hz⟩ := h
  have hmx : (regionMidpoint minBound maxBound).x = (maxBound.x + minBound.x) / 2 := rfl
  have hmy : (regionMidpoint minBound maxBound).y = (maxBound.y + minBound.y) / 2 := rfl
  have hmz : (regionMidpoint minBound maxBound).z = (maxBound.z + minBound.z) / 2 := rfl
  simp only [subregionMin, subregionMax, IVec3.le_def, IVec3.add_x, IVec3.add_y, IVec3.add_z,
    IVec3.mul_x, IVec3.mul_y, IVec3.mul_z, IVec3.sub_x, IVec3.sub_y, IVec3.sub_z]
  refine ⟨⟨?_, ?_, ?_⟩, ⟨?_, ?_, ?_⟩, ⟨?_, ?_, ?_⟩⟩ <;>
    [rcases hcx with hc | hc; rcases hcy with hc | hc; rcases hcz with hc | hc;
     rcases hcx with hc | hc; rcases hcy with hc | hc; rcases hcz with hc | hc;
     rcases hcx with hc | hc; rcases hcy with hc | hc; rcases hcz with hc | hc] <;>
    rw [hc] <;> omega

/-- Overlap persistence at the regions the builder actually reaches: when
the region min is at or below the volume's min corner (which holds for the
zero-seeded root bound and is preserved downward, by `subregion_le`) and
the volume is well-formed, a volume overlapping an octant also overlaps
the parent region. -/
theorem overlaps_of_child (minBound maxBound : IVec3) (i : Nat) (v : Volume)
    (hmn : minBound ≤ maxBound) (hv : minBound ≤ v.min) (hwf : v.min ≤ v.max)
    (h : overlaps (subregionMin minBound maxBound i) (subregionMax minBound maxBound i) v = true) :
    overlaps minBound maxBound v = true := by
  rw [overlaps_iff] at h ⊢
  obtain ⟨hsub, hsmax, _⟩ := subregion_le minBound maxBound i hmn
  obtain ⟨_, c1, _, c2, _, c3⟩ := h
  exact ⟨Int.le_trans hv.1 hwf.1, Int.le_trans c1 hsmax.1,
    Int.le_trans hv.2.1 hwf.2.1, Int.le_trans c2 hsmax.2.1,
    Int.le_trans hv.2.2 hwf.2.2, Int.le_trans c3 hsmax.2.2⟩

/-- The reimplementation variant described by the spec (design note on
re-filtering): identical to `buildFuel` except that every recursive call
receives the parent's already-filtered overlap subset instead of the
unchanged candidate list. -/
def buildFilteredFuel : Nat → IVec3 → IVec3 → List Volume → Option OctreeCell
  | 0, _, _, _ => none
  | fuel + 1, minBound, maxBound, volumes =>
    if 8 ≤ (volumes.filter (overlaps minBound maxBound)).length then
      (buildFilteredFuel fuel (subregionMin minBound maxBound 0) (subregionMax minBound maxBound 0) (volumes.filter (overlaps minBound maxBound))).bind fun a =>
      (buildFilteredFuel fuel (subregionMin minBound maxBound 1) (subregionMax minBound maxBound 1) (volumes.filter (overlaps minBound maxBound))).bind fun b =>
      (buildFilteredFuel fuel (subregionMin minBound maxBound 2) (subregionMax minBound maxBound 2) (volumes.filter (overlaps minBound maxBound))).bind fun c =>
      (buildFilteredFuel fuel (subregionMin minBound maxBound 3) (subregionMax minBound maxBound 3) (volumes.filter (overlaps minBound maxBound))).bind fun d =>
      (buildFilteredFuel fuel (subregionMin minBound maxBound 4) (subregionMax minBound maxBound 4) (volumes.filter (overlaps minBound maxBound))).bind fun e =>
      (buildFilteredFuel fuel (subregionMin minBound maxBound 5) (subregionMax minBound maxBound 5) (volumes.filter (overlaps minBound maxBound))).bind fun f =>
      (buildFilteredFuel fuel (subregionMin minBound maxBound 6) (subregionMax minBound maxBound 6) (volumes.filter (overlaps minBound maxBound))).bind fun g =>
      (buildFilteredFuel fuel (subregionMin minBound maxBound 7) (subregionMax minBound maxBound 7) (volumes.filter (overlaps minBound maxBound))).bind fun h =>
      some (OctreeCell.EmptyCell a b c d e f g h)
    else if (volumes.filter (overlaps minBound maxBound)).length = 0 then
      some OctreeCell.EmptyChildlessCell
    else
      some (OctreeCell.FilledCell (volumes.filter (overlaps minBound maxBound)))

/-- `Octree::new` built on the filtered variant of the recursive builder. -/
def octreeNewFiltered (fuel : Nat) (volumes : List Volume) : BuildResult :=
  if computeMinBound volumes = computeMaxBound volumes then
    BuildResult.assertionFailed
  else
    match buildFilteredFuel fuel (normalizeMin (computeMinBound volumes))
        (normalizeMax (computeMaxBound volumes)) volumes with
    | some root => BuildResult.ok root
    | none => BuildResult.outOfFuel

instance (a b : IVec3) : Decidable (a ≤ b) :=
  inferInstanceAs (Decidable (a.x ≤ b.x ∧ a.y ≤ b.y ∧ a.z ≤ b.z))

/-- Core of claim C7: at any region whose min corner is at or below every
candidate volume's min corner (true of the zero-seeded root bound and
preserved by subdivision), the filtered variant applied to any candidate
list with the same overlap subset computes the same tree as the reference
builder, fuel step by fuel step. -/
theorem buildFiltered_eq :
    ∀ (fuel : Nat) (minBound maxBound : IVec3) (V W : List Volume),
      minBound ≤ maxBound →
      (∀ v ∈ W, minBound ≤ v.min ∧ v.min ≤ v.max) →
      V.filter (overlaps minBound maxBound) = W.filter (overlaps minBound maxBound) →
      buildFilteredFuel fuel minBound maxBound V = buildFuel fuel minBound maxBound W := by
  intro fuel
  induction fuel with
  | zero => intro mn mx V W _ _ _; rfl
  | succ n ih =>
    intro mn mx V W hmn hW hVW
    rw [buildFilteredFuel, buildFuel, hVW]
    by_cases h8 : 8 ≤ (W.filter (overlaps mn mx)).length
    · rw [if_pos h8, if_pos h8]
      have hsubW : ∀ j : Nat, ∀ v ∈ W, subregionMin mn mx j ≤ v.min ∧ v.min ≤ v.max :=
        fun j v hv => ⟨IVec3.le_trans3 (subregion_le mn mx j hmn).1 (hW v hv).1, (hW v hv).2⟩
      have hfil : ∀ j : Nat,
          (W.filter (overlaps mn mx)).filter
            (overlaps (subregionMin mn mx j) (subregionMax mn mx j)) =
          W.filter (overlaps (subregionMin mn mx j) (subregionMax mn mx j)) := by
        intro j
        rw [List.filter_filter]
        refine List.filter_congr ?_
        intro v hv
        cases hov : overlaps (subregionMin mn mx j) (subregionMax mn mx j) v
        · simp [hov]
        · simp [hov, overlaps_of_child mn mx j v hmn (hW v hv).1 (hW v hv).2 hov]
      have e0 := ih (subregionMin mn mx 0) (subregionMax mn mx 0) (W.filter (overlaps mn mx)) W
        (subregion_le mn mx 0 hmn).2.2 (hsubW 0) (hfil 0)
      have e1 := ih (subregionMin mn mx 1) (subregionMax mn mx 1) (W.filter (overlaps mn mx)) W
        (subregion_le mn mx 1 hmn).2.2 (hsubW 1) (hfil 1)
      have e2 := ih (subregionMin mn mx 2) (subregionMax mn mx 2) (W.filter (overlaps mn mx)) W
        (subregion_le mn mx 2 hmn).2.2 (hsubW 2) (hfil 2)
      have e3 := ih (subregionMin mn mx 3) (subregionMax mn mx 3) (W.filter (overlaps mn mx)) W
        (subregion_le mn mx 3 hmn).2.2 (hsubW 3) (hfil 3)
      have e4 := ih (subregionMin mn mx 4) (subregionMax mn mx 4) (W.filter (overlaps mn mx)) W
        (subregion_le mn mx 4 hmn).2.2 (hsubW 4) (hfil 4)
      have e5 := ih (subregionMin mn mx 5) (subregionMax mn mx 5) (W.filter (overlaps mn mx)) W
        (subregion_le mn mx 5 hmn).2.2 (hsubW 5) (hfil 5)
      have e6 := ih (subregionMin mn mx 6) (subregionMax mn mx 6) (W.filter (overlaps mn mx)) W
        (subregion_le mn mx 6 hmn).2.2 (hsubW 6) (hfil 6)
      have e7 := ih (subregionMin mn mx 7) (subregionMax mn mx 7) (W.filter (overlaps mn mx)) W
        (subregion_le mn mx 7 hmn).2.2 (hsubW 7) (hfil 7)
      simp only [e0, e1, e2, e3, e4, e5, e6, e7]
    · rw [if_neg h8, if_neg h8]

/-- Claim C7: the reference builder hands the same unfiltered candidate
list to all 8 recursive child builds (see `buildFuel`), and for every
input of well-formed volumes the variant that instead hands each child the
parent's already-filtered overlap subset constructs an identical tree: a
volume excluded by the overlap test at a region the build reaches can
never satisfy the overlap test at any of that region's child regions
(`overlaps_of_child` with `subregion_le`). -/
theorem octree_filtered_eq (fuel : Nat) (volumes : List Volume)
    (hwf : ∀ v ∈ volumes, v.min ≤ v.max) :
    octreeNewFiltered fuel volumes = octreeNew fuel volumes := by
  unfold octreeNewFiltered octreeNew
  by_cases heq : computeMinBound volumes = computeMaxBound volumes
  · rw [if_pos heq, if_pos heq]
  · have hbounds : normalizeMin (computeMinBound volumes) ≤
        normalizeMax (computeMaxBound volumes) :=
      IVec3.le_trans3 (normalizeMin_le _)
        (IVec3.le_trans3 (foldl_minv_le_init volumes IVec3.zero)
          (IVec3.le_trans3 (init_le_foldl_maxv volumes IVec3.zero) (le_normalizeMax _)))
    have hinv : ∀ v ∈ volumes,
        normalizeMin (computeMinBound volumes) ≤ v.min ∧ v.min ≤ v.max :=
      fun v hv =>
        ⟨IVec3.le_trans3 (normalizeMin_le _) (foldl_minv_le_mem volumes IVec3.zero v hv),
          hwf v hv⟩
    rw [if_neg heq, if_neg heq,
      buildFiltered_eq fuel _ _ volumes volumes hbounds hinv rfl]

/-- Witness for `octree_filtered_eq`: the filtered variant and the
reference construction agree on the concrete input `vols8b`. -/
theorem octree_filtered_eq_witness :
    octreeNewFiltered 10 vols8b = octreeNew 10 vols8b :=
  octree_filtered_eq 10 vols8b (by decide)

/-- Parametric builder following the spec's words: identical to the
recursive cell builder except that the filled-versus-subdivide decision
compares the overlap count against a caller-chosen leaf capacity
`threshold` instead of a fixed constant. It is the comparison point for
whether the source exposes such a parameter. -/
def buildThresholdFuel (threshold : Nat) : Nat → IVec3 → IVec3 → List Volume → Option OctreeCell
  | 0, _, _, _ => none
  | fuel + 1, minBound, maxBound, volumes =>
    if threshold ≤ (volumes.filter (overlaps minBound maxBound)).length then
      (buildThresholdFuel threshold fuel (subregionMin minBound maxBound 0) (subregionMax minBound maxBound 0) volumes).bind fun a =>
      (buildThresholdFuel threshold fuel (subregionMin minBound maxBound 1) (subregionMax minBound maxBound 1) volumes).bind fun b =>
      (buildThresholdFuel threshold fuel (subregionMin minBound maxBound 2) (subregionMax minBound maxBound 2) volumes).bind fun c =>
      (buildThresholdFuel threshold fuel (subregionMin minBound maxBound 3) (subregionMax minBound maxBound 3) volumes).bind fun d =>
      (buildThresholdFuel threshold fuel (subregionMin minBound maxBound 4) (subregionMax minBound maxBound 4) volumes).bind fun e =>
      (buildThresholdFuel threshold fuel (subregionMin minBound maxBound 5) (subregionMax minBound maxBound 5) volumes).bind fun f =>
      (buildThresholdFuel threshold fuel (subregionMin minBound maxBound 6) (subregionMax minBound maxBound 6) volumes).bind fun g =>
      (buildThresholdFuel threshold fuel (subregionMin minBound maxBound 7) (subregionMax minBound maxBound 7) volumes).bind fun h =>
      some (OctreeCell.EmptyCell a b c d e f g h)
    else if (volumes.filter (overlaps minBound maxBound)).length = 0 then
      some OctreeCell.EmptyChildlessCell
    else
      some (OctreeCell.FilledCell (volumes.filter (overlaps minBound maxBound)))

/-- `Octree::new` built on the parametric builder. -/
def octreeNewThreshold (threshold fuel : Nat) (volumes : List Volume) : BuildResult :=
  if computeMinBound volumes = computeMaxBound volumes then
    BuildResult.assertionFailed
  else
    match buildThresholdFuel threshold fuel (normalizeMin (computeMinBound volumes))
        (normalizeMax (computeMaxBound volumes)) volumes with
    | some root => BuildResult.ok root
    | none => BuildResult.outOfFuel

theorem buildFuel_eq_threshold_eight :
    ∀ (fuel : Nat) (minBound maxBound : IVec3) (volumes : List Volume),
      buildFuel fuel minBound maxBound volumes =
        buildThresholdFuel 8 fuel minBound maxBound volumes := by
  intro fuel
  induction fuel with
  | zero => intro mn mx volumes; rfl
  | succ n ih =>
    intro mn mx volumes
    rw [buildFuel, buildThresholdFuel]
    simp only [ih]

/-- Claim C8 (amended): the leaf capacity threshold of the source is the
constant 8 hard-coded in `build_recursively`, not a construction-time
parameter — construction behaves exactly like the spec's parametric
builder with the threshold instantiated at the fixed value 8 (an integer
at least 1). -/
theorem octree_threshold_fixed_eight (fuel : Nat) (volumes : List Volume) :
    octreeNew fuel volumes = octreeNewThreshold 8 fuel volumes := by
  unfold octreeNew octreeNewThreshold
  rw [buildFuel_eq_threshold_eight]

/-- Claim C8 counterexample: the source's construction provides no way to
choose a different threshold — on the concrete input `vols8b` it
subdivides the root (as the parametric builder does at threshold 8),
whereas a caller-chosen threshold of 9 would have produced a filled root:
the observable behavior is pinned to the constant 8. -/
theorem octree_threshold_not_configurable :
    octreeNew 10 vols8b ≠ octreeNewThreshold 9 10 vols8b ∧
    octreeNew 10 vols8b = octreeNewThreshold 8 10 vols8b ∧
    octreeNewThreshold 9 10 vols8b =
      BuildResult.ok (OctreeCell.FilledCell vols8b) ∧
    BuildResult.rootSubdivided (octreeNew 10 vols8b) = true := by
  refine ⟨by decide, by decide, by decide, by decide⟩

/-- Witness for `octree_threshold_fixed_eight` at a concrete input. -/
theorem octree_threshold_fixed_eight_witness :
    octreeNew 3 vols1 = octreeNewThreshold 8 3 vols1 :=
  octree_threshold_fixed_eight 3 vols1
